import Mathlib

/-!
Shallow embedding of the rula Discovery, Caching, and Ranking Engine
(src/system.rs, src/db.rs, src/app.rs) and proofs of its specification
properties.

Rust strings are modelled as Lean `String`, with character-level operations
carried out on `String.data : List Char` by structurally recursive helpers
(UTF-8 byte order agrees with code-point order, so character-level modelling
is order-faithful). Machine integers `i32` are modelled as `Int` and `u64`
timestamps as `Nat`; `u64::saturating_sub` coincides with truncated `Nat`
subtraction. SQLite rows of the `app_prefs` table are modelled as an
association list keyed by the primary key `app_name`. The external fuzzy
matcher (`SkimMatcherV2::fuzzy_match`) is an opaque parameter
`matcher : String → String → Option Int` returning an affinity score or
no-match, exactly as the crate's interface does.
-/

namespace Rula

-- ===========================================================================
-- String helpers (character-list models of the Rust std string operations)
-- ===========================================================================

/-- First token of Rust `str::split_whitespace`, or `""` when there is none
(system.rs lines 126-130: `exec_raw.split_whitespace().next().unwrap_or("")`). -/
def firstWhitespaceToken (s : String) : String :=
  ((s.data.dropWhile Char.isWhitespace).takeWhile (fun c => !c.isWhitespace)).asString

/-- Split a character list on `'/'` (model of `str::split('/')`). -/
def splitOnSlash : List Char → List (List Char)
  | [] => [[]]
  | c :: rest =>
    match splitOnSlash rest with
    | [] => [[]]
    | h :: t => if c = '/' then [] :: h :: t else (c :: h) :: t

/-- Model of Rust `Path::file_name` on the string form of a path: the last
normal component (`""` and `"."` components are skipped by `Components`),
`none` when the path ends in `".."` or has no normal component. -/
def fileNameOfPath (s : String) : Option String :=
  let comps := (splitOnSlash s.data).filter (fun c => c != [] && c != ['.'])
  match comps.getLast? with
  | some c => if c = ['.', '.'] then none else some c.asString
  | none => none

/-- The simple (basename) form of the first token of a launch command
(system.rs lines 126-135). -/
def simpleBinOf (exec_raw : String) : String :=
  let binary_name := firstWhitespaceToken exec_raw
  (fileNameOfPath binary_name).getD binary_name

/-- Code-point lexicographic strict order on character lists; for UTF-8
strings this is Rust `str::cmp`'s `Less` (byte order = code-point order). -/
def charListLt : List Char → List Char → Bool
  | [], [] => false
  | [], _ :: _ => true
  | _ :: _, [] => false
  | a :: as, b :: bs => decide (a < b) || (a == b && charListLt as bs)

/-- Weak order `a ≤ b` in Rust `str::cmp` order. -/
def charListLe (a b : List Char) : Bool := !(charListLt b a)

/-- Model of Rust `str::contains(pat)`: `startsL pat t` is "`t` starts with
`pat`". -/
def startsL : List Char → List Char → Bool
  | [], _ => true
  | _ :: _, [] => false
  | p :: ps, t :: ts => p == t && startsL ps ts

/-- Predicate `containsL pat t`: `pat` occurs contiguously inside `t`
(model of Rust `str::contains` for a string pattern). -/
def containsL (pat : List Char) : List Char → Bool
  | [] => startsL pat []
  | t :: ts => startsL pat (t :: ts) || containsL pat ts

/-- Model of Rust `str::to_lowercase` (ASCII case fold; the scanned paths and
queries are compared char by char). -/
def strToLower (s : String) : String := (s.data.map Char.toLower).asString

/-- Model of Rust `str::contains(char)`. -/
def strContainsChar (s : String) (c : Char) : Bool := s.data.contains c

-- ===========================================================================
-- Preference store (db.rs)
-- ===========================================================================

/-- One row value of the `app_prefs` table: `(is_tui, score, usage, last_used)`
with the schema defaults of db.rs lines 24-30. -/
structure PrefData where
  is_tui : Bool
  score : Int
  usage : Int
  last_used : Nat
deriving Repr, DecidableEq

/-- The default row returned for an absent name (db.rs line 52). -/
def defaultPref : PrefData := ⟨false, 0, 0, 0⟩

/-- The `app_prefs` table: rows keyed by the primary key `app_name`. -/
def Database : Type := List (String × PrefData)

/-- db.rs `get_app_data`: point query for one name; `(false, 0, 0, 0)` when
the row is absent — absence is never an error. -/
def get_app_data (db : Database) (app_name : String) : PrefData :=
  match db.find? (fun r => r.1 == app_name) with
  | some r => r.2
  | none => defaultPref

/-- db.rs `get_all_app_data`: single full-table read producing a name-keyed
map. `app_name` is the table's primary key, so rows are unique per name and
the hash-map lookup coincides with first-match row lookup. -/
def get_all_app_data (db : Database) : String → PrefData :=
  fun n => get_app_data db n

-- ===========================================================================
-- Score compositor (system.rs lines 146-148, 241-242)
-- ===========================================================================

/-- Score composition `base_score + usage * 10` (system.rs lines 146 and 241). -/
def totalScore (score usage : Int) : Int := score + usage * 10

/-- Thirty days, `30 * 24 * 60 * 60` seconds (system.rs lines 64 and 237). -/
def thirty_days : Nat := 30 * 24 * 60 * 60

/-- Dormancy test `last_used > 0 && (now.saturating_sub(last_used) > thirty_days)`
(system.rs lines 147-148 and 242). `Nat` subtraction is truncated, which is
exactly `u64::saturating_sub`. -/
def isDormant (now last_used : Nat) : Bool :=
  decide (last_used > 0) && decide (now - last_used > thirty_days)

-- ===========================================================================
-- App entries and the final sort
-- ===========================================================================

/-- system.rs lines 20-27. -/
structure AppEntry where
  name : String
  exec : String
  is_cli_only : Bool
  total_score : Int
  is_dormant : Bool
deriving Repr, DecidableEq

/-- Comparator of the final sorts (system.rs lines 222-226 and 245-249):
descending `total_score`, ties broken by ascending `name`. `appLe a b` holds
when the comparator allows `a` to precede `b`. -/
def appLe (a b : AppEntry) : Bool :=
  decide (b.total_score < a.total_score) ||
    (b.total_score == a.total_score && charListLe a.name.data b.name.data)

/-- Relation form of `appLe`, decidable. -/
def appRel (a b : AppEntry) : Prop := appLe a b = true

instance : DecidableRel appRel :=
  fun a b => inferInstanceAs (Decidable (appLe a b = true))

/-- Model of `Vec::sort_by` with the comparator above. Rust's `sort_by` is a stable
sort and a stable sort's output is uniquely determined by the comparator, so
it is embedded as stable insertion sort. -/
def sortApps (apps : List AppEntry) : List AppEntry :=
  List.insertionSort appRel apps

-- ===========================================================================
-- Cache-load enrichment path (system.rs lines 232-252)
-- ===========================================================================

/-- Body of the per-app loop of `enrich_apps_with_db_data`
(system.rs lines 239-243): one point query, then recompute the derived view. -/
def enrichEntry (db : Database) (now : Nat) (a : AppEntry) : AppEntry :=
  let d := get_app_data db a.name
  { a with
    total_score := totalScore d.score d.usage
    is_dormant := isDormant now d.last_used }

/-- system.rs `enrich_apps_with_db_data` (lines 232-252): recompute every
derived view from fresh store data, then sort. -/
def enrich_apps_with_db_data (apps : List AppEntry) (db : Database) (now : Nat) :
    List AppEntry :=
  sortApps (apps.map (enrichEntry db now))

-- ===========================================================================
-- Fresh scan (system.rs lines 55-229)
-- ===========================================================================

/-- A parsed `.desktop` entry file as the `freedesktop_entry_parser`
collaborator presents it: whether a `[Desktop Entry]` section exists, and the
first value of each of the `NoDisplay`, `Name` and `Exec` attributes. -/
structure DesktopFile where
  hasDesktopSection : Bool
  noDisplayAttr : Option String
  nameAttr : Option String
  execAttr : Option String
deriving Repr, DecidableEq

/-- A directory entry of a PATH directory as the filesystem presents it:
file name, whether it is a regular file, and its permission mode bits. -/
structure PathFile where
  fname : String
  is_file : Bool
  mode : Nat
deriving Repr, DecidableEq

/-- A directory from the search-path variable: its path string, whether it
exists and is a directory, and its entries. -/
structure PathDir where
  path : String
  dirExists : Bool
  is_dir : Bool
  files : List PathFile
deriving Repr, DecidableEq

/-- Mutable state of `scan_apps_fresh`: the accumulated entries, the
`seen_names` set and the `known_execs` set (system.rs lines 56-58). -/
structure ScanState where
  apps : List AppEntry
  seen_names : List String
  known_execs : List String
deriving Repr, DecidableEq

/-- The `NoDisplay` handling (system.rs lines 101-105): first attribute value,
compared to `"true"`, defaulting to false. -/
def noDisplayOf (f : DesktopFile) : Bool :=
  (f.noDisplayAttr.map (fun s => s == "true")).getD false

/-- The `Name` handling (system.rs lines 112-116): defaulted to `"Unknown"`. -/
def nameOf (f : DesktopFile) : String := f.nameAttr.getD "Unknown"

/-- The `Exec` handling (system.rs lines 119-123): defaulted to `""`. -/
def execOf (f : DesktopFile) : String := f.execAttr.getD ""

/-- Processing of one `.desktop` file inside the desktop scan loop
(system.rs lines 92-159). -/
def processDesktopFile (db : Database) (now : Nat) (st : ScanState)
    (f : DesktopFile) : ScanState :=
  if !f.hasDesktopSection then st
  else if noDisplayOf f then st
  else
    let name := nameOf f
    let exec_raw := execOf f
    if exec_raw != "" && name != "Unknown" then
      let simple_bin := simpleBinOf exec_raw
      let st1 := { st with known_execs := simple_bin :: st.known_execs }
      if st1.seen_names.contains name then st1
      else
        let d := get_all_app_data db name
        { st1 with
          apps := st1.apps ++
            [⟨name, exec_raw, false, totalScore d.score d.usage,
              isDormant now d.last_used⟩]
          seen_names := name :: st1.seen_names }
    else st

/-- PATH-directory exclusion (system.rs lines 171-176): substring test for
`"/sbin"`, `"/games"`, `"/lib"` on the raw path string. -/
def pathExcluded (p : String) : Bool :=
  containsL "/sbin".data p.data || containsL "/games".data p.data ||
    containsL "/lib".data p.data

/-- Processing of one file of a PATH directory (system.rs lines 179-216). -/
def processPathFile (db : Database) (now : Nat) (st : ScanState)
    (f : PathFile) : ScanState :=
  if !f.is_file then st
  else if strContainsChar f.fname '.' || f.fname.data.head? == some '.' then st
  else if f.mode &&& 0o111 != 0 then
    if st.known_execs.contains f.fname then st
    else if st.seen_names.contains f.fname then st
    else
      let d := get_all_app_data db f.fname
      { st with
        apps := st.apps ++
          [⟨f.fname, f.fname, true, totalScore d.score d.usage,
            isDormant now d.last_used⟩]
        seen_names := f.fname :: st.seen_names }
  else st

/-- Processing of one directory of the search-path variable
(system.rs lines 166-219). -/
def processPathDir (db : Database) (now : Nat) (st : ScanState)
    (d : PathDir) : ScanState :=
  if !d.dirExists || !d.is_dir then st
  else if pathExcluded d.path then st
  else d.files.foldl (processPathFile db now) st

/-- system.rs `scan_apps_fresh` (lines 55-229), over the `.desktop` files
found in the scan directories and the directories of the search-path
variable. The single `get_all_app_data` batch query is issued up front
(line 67); every per-entity read goes through the resulting map. -/
def scan_apps_fresh (db : Database) (now : Nat) (desktopFiles : List DesktopFile)
    (pathDirs : List PathDir) : List AppEntry :=
  let st0 : ScanState := ⟨[], [], []⟩
  let st1 := desktopFiles.foldl (processDesktopFile db now) st0
  let st2 := pathDirs.foldl (processPathDir db now) st1
  sortApps st2.apps

/-- The `known_execs` set captured by the desktop phase alone. -/
def desktopKnownExecs (db : Database) (now : Nat)
    (desktopFiles : List DesktopFile) : List String :=
  (desktopFiles.foldl (processDesktopFile db now) ⟨[], [], []⟩).known_execs

-- ===========================================================================
-- Discovery cache (system.rs lines 258-304)
-- ===========================================================================

/-- system.rs lines 258-263: the persisted identity triple. The JSON codec
(`serde_json::to_string` / `from_str`) is the external serialization
collaborator and round-trips this record list faithfully, so the cache file
content is modelled as the `CachedApp` list itself. -/
structure CachedApp where
  name : String
  exec : String
  is_cli_only : Bool
deriving Repr, DecidableEq

/-- system.rs `save_app_cache` (lines 273-286): project each entry to its
identity triple and write the list. -/
def save_app_cache (apps : List AppEntry) : List CachedApp :=
  apps.map (fun a => ⟨a.name, a.exec, a.is_cli_only⟩)

/-- system.rs `load_app_cache` (lines 288-304): rebuild entries from the
identity triples with zero derived fields. -/
def load_app_cache (cached : List CachedApp) : List AppEntry :=
  cached.map (fun c => ⟨c.name, c.exec, c.is_cli_only, 0, false⟩)

-- ===========================================================================
-- Instrumented store-query counting (for the batch-vs-point-query property)
-- ===========================================================================

/-- Instrumented `get_app_data`: the result together with the number of store queries it issues. -/
def get_app_data_counted (db : Database) (n : String) : PrefData × Nat :=
  (get_app_data db n, 1)

/-- Instrumented `get_all_app_data`: the result together with the number of store queries it issues:
one full-table read. -/
def get_all_app_data_counted (db : Database) : (String → PrefData) × Nat :=
  (get_all_app_data db, 1)

/-- Instrumented `enrich_apps_with_db_data` with a count of store queries:
the loop of system.rs lines 239-243 issues one `get_app_data` point query per
entity. -/
def enrich_apps_with_db_data_counted (apps : List AppEntry) (db : Database)
    (now : Nat) : List AppEntry × Nat :=
  let r := apps.foldl
    (fun (acc : List AppEntry × Nat) a =>
      let (d, q) := get_app_data_counted db a.name
      (acc.1 ++
        [{ a with
            total_score := totalScore d.score d.usage
            is_dormant := isDormant now d.last_used }],
        acc.2 + q))
    ([], 0)
  (sortApps r.1, r.2)

/-- Instrumented `scan_apps_fresh` with a count of store queries: the single
batch `get_all_app_data` call of system.rs line 67; both scan loops read only
the in-memory map. -/
def scan_apps_fresh_counted (db : Database) (now : Nat)
    (desktopFiles : List DesktopFile) (pathDirs : List PathDir) :
    List AppEntry × Nat :=
  let (_db_data, q) := get_all_app_data_counted db
  (scan_apps_fresh db now desktopFiles pathDirs, q)

-- ===========================================================================
-- Fuzzy ranking pipelines (system.rs lines 310-397, app.rs lines 195-224)
-- ===========================================================================

/-- The match phase of `fuzzy_search_apps` (system.rs lines 386-389): score
every candidate name, discard non-matches. The rayon parallel collect
preserves candidate order. -/
def fuzzyMatches (matcher : String → String → Option Int) (query : String)
    (apps : List AppEntry) : List (Int × AppEntry) :=
  apps.filterMap (fun app => (matcher app.name query).map (fun s => (s, app)))

/-- Comparator of system.rs lines 391-394: descending affinity, ties broken
by descending `total_score`. -/
def fuzzyLe (a b : Int × AppEntry) : Bool :=
  decide (b.1 < a.1) || (b.1 == a.1 && decide (b.2.total_score ≤ a.2.total_score))

/-- Relation form of `fuzzyLe`, decidable. -/
def fuzzyRel (a b : Int × AppEntry) : Prop := fuzzyLe a b = true

instance : DecidableRel fuzzyRel :=
  fun a b => inferInstanceAs (Decidable (fuzzyLe a b = true))

/-- The sort phase of `fuzzy_search_apps` (stable `sort_by`, embedded as
stable insertion sort). -/
def fuzzySorted (matcher : String → String → Option Int) (query : String)
    (apps : List AppEntry) : List (Int × AppEntry) :=
  List.insertionSort fuzzyRel (fuzzyMatches matcher query apps)

/-- system.rs `fuzzy_search_apps` (lines 380-397): match, sort, then take the
first 50. -/
def fuzzy_search_apps (matcher : String → String → Option Int) (query : String)
    (apps : List AppEntry) : List AppEntry :=
  ((fuzzySorted matcher query apps).take 50).map (fun p => p.2)

/-- The `Mode::Apps` arm of `App::update_search` (app.rs lines 199-213):
full list on an empty query, fuzzy search otherwise, then the dormancy
visibility filter as the final projection. -/
def update_search_apps (matcher : String → String → Option Int) (query : String)
    (all_apps : List AppEntry) (show_dormant : Bool) : List AppEntry :=
  let matched :=
    if query = "" then all_apps else fuzzy_search_apps matcher query all_apps
  matched.filter (fun app => show_dormant || !app.is_dormant)

/-- One entry met by the filesystem walker (the `ignore` crate collaborator):
its path and whether it is a regular file. -/
structure WalkEntry where
  path : String
  is_file : Bool
deriving Repr, DecidableEq

/-- The candidate-collection loop of `FileSearcher::search`
(system.rs lines 333-358): stop as soon as `limit * 10` candidates are
gathered; keep regular files whose lowercased path contains every character
of the lowercased query. -/
def collectCandidates (query_lower : String) (limit : Nat) :
    List WalkEntry → List String → List String
  | [], acc => acc
  | e :: rest, acc =>
    if acc.length ≥ limit * 10 then acc
    else
      let acc1 :=
        if e.is_file &&
            query_lower.data.all (fun c => strContainsChar (strToLower e.path) c)
        then acc ++ [e.path] else acc
      collectCandidates query_lower limit rest acc1

/-- Comparator of system.rs line 370: descending affinity only. -/
def fileLe (a b : Int × String) : Bool := decide (b.1 ≤ a.1)

/-- Relation form of `fileLe`, decidable. -/
def fileRel (a b : Int × String) : Prop := fileLe a b = true

instance : DecidableRel fileRel :=
  fun a b => inferInstanceAs (Decidable (fileLe a b = true))

/-- The scored candidates of `FileSearcher::search` (system.rs lines
361-367). -/
def fileMatches (matcher : String → String → Option Int) (query : String)
    (candidates : List String) : List (Int × String) :=
  candidates.filterMap (fun p => (matcher p query).map (fun s => (s, p)))

/-- system.rs `FileSearcher::search` (lines 323-373) over the entries the
walker yields in order: empty query short-circuits to the empty list before
any walk; otherwise collect capped pre-filtered candidates during the walk,
fuzzy-score them, sort by affinity descending, truncate to `limit`. -/
def fileSearch (matcher : String → String → Option Int) (walk : List WalkEntry)
    (query : String) (limit : Nat) : List String :=
  if query = "" then []
  else
    let query_lower := strToLower query
    let candidates := collectCandidates query_lower limit walk []
    let sorted := List.insertionSort fileRel (fileMatches matcher query candidates)
    ((sorted.take limit).map (fun p => p.2))

/-- The `Mode::Files` arm of `App::update_search` (app.rs lines 214-222):
clear on empty input, else `FileSearcher::search` with limit 50. -/
def update_search_files (matcher : String → String → Option Int)
    (walk : List WalkEntry) (query : String) : List String :=
  if query = "" then [] else fileSearch matcher walk query 50

/-- Modelled from the spec's words, for comparison with the code's
`pathExcluded`: a directory "lies under a `sbin`, `games`, or `lib` path
segment" when some `'/'`-separated component of its path equals `"sbin"`,
`"games"` or `"lib"`. -/
def segmentExcluded (p : String) : Bool :=
  (splitOnSlash p.data).any
    (fun c => c == "sbin".data || c == "games".data || c == "lib".data)

-- ===========================================================================
-- Helper lemmas: fold machinery
-- ===========================================================================

lemma foldl_invariant {α σ : Type} {P : σ → Prop} (step : σ → α → σ)
    (h : ∀ s a, P s → P (step s a)) :
    ∀ (l : List α) (s : σ), P s → P (l.foldl step s) := by
  intro l
  induction l with
  | nil => intro s hs; simpa using hs
  | cons x xs ih =>
    intro s hs
    simpa using ih (step s x) (h s x hs)

lemma foldl_chain {α σ : Type} {R : σ → σ → Prop} (step : σ → α → σ)
    (hrefl : ∀ s, R s s) (htrans : ∀ a b c, R a b → R b c → R a c)
    (h : ∀ s a, R s (step s a)) :
    ∀ (l : List α) (s : σ), R s (l.foldl step s) := by
  intro l
  induction l with
  | nil => intro s; simpa using hrefl s
  | cons x xs ih =>
    intro s
    exact htrans _ _ _ (h s x) (by simpa using ih (step s x))

-- ===========================================================================
-- Helper lemmas: case analyses of the scan step functions
-- ===========================================================================

/-- The entity pushed for an accepted desktop file. -/
def desktopEntity (db : Database) (now : Nat) (f : DesktopFile) : AppEntry :=
  ⟨nameOf f, execOf f, false,
    totalScore (get_all_app_data db (nameOf f)).score
      (get_all_app_data db (nameOf f)).usage,
    isDormant now (get_all_app_data db (nameOf f)).last_used⟩

/-- The entity pushed for an accepted PATH binary. -/
def pathEntity (db : Database) (now : Nat) (n : String) : AppEntry :=
  ⟨n, n, true,
    totalScore (get_all_app_data db n).score (get_all_app_data db n).usage,
    isDormant now (get_all_app_data db n).last_used⟩

lemma processDesktopFile_cases (db : Database) (now : Nat) (st : ScanState)
    (f : DesktopFile) :
    processDesktopFile db now st f = st ∨
    (f.hasDesktopSection = true ∧ noDisplayOf f = false ∧
      execOf f ≠ "" ∧ nameOf f ≠ "Unknown" ∧
      ((st.seen_names.contains (nameOf f) = true ∧
         processDesktopFile db now st f =
           { st with known_execs := simpleBinOf (execOf f) :: st.known_execs }) ∨
       (st.seen_names.contains (nameOf f) = false ∧
         processDesktopFile db now st f =
           { apps := st.apps ++ [desktopEntity db now f]
             seen_names := nameOf f :: st.seen_names
             known_execs := simpleBinOf (execOf f) :: st.known_execs }))) := by
  unfold processDesktopFile
  cases h1 : f.hasDesktopSection with
  | false => left; simp [h1]
  | true =>
    cases h2 : noDisplayOf f with
    | true => left; simp [h2]
    | false =>
      cases h3 : (execOf f != "" && nameOf f != "Unknown") with
      | false => left; simp [h3]
      | true =>
        rw [Bool.and_eq_true, bne_iff_ne, bne_iff_ne] at h3
        right
        refine ⟨rfl, rfl, h3.1, h3.2, ?_⟩
        cases h4 : st.seen_names.contains (nameOf f) with
        | true =>
          left
          have h4' : nameOf f ∈ st.seen_names := by simpa using h4
          refine ⟨rfl, ?_⟩
          simp only [h1, h2]
          simp [h3.1, h3.2, h4']
        | false =>
          right
          have h4' : nameOf f ∉ st.seen_names := by simpa using h4
          refine ⟨rfl, ?_⟩
          simp only [h1, h2]
          simp [h3.1, h3.2, h4', desktopEntity]

lemma processPathFile_cases (db : Database) (now : Nat) (st : ScanState)
    (f : PathFile) :
    processPathFile db now st f = st ∨
    (f.is_file = true ∧ strContainsChar f.fname '.' = false ∧
      f.fname.data.head? ≠ some '.' ∧ f.mode &&& 0o111 ≠ 0 ∧
      st.known_execs.contains f.fname = false ∧
      st.seen_names.contains f.fname = false ∧
      processPathFile db now st f =
        { st with
          apps := st.apps ++ [pathEntity db now f.fname]
          seen_names := f.fname :: st.seen_names }) := by
  unfold processPathFile
  cases h1 : f.is_file with
  | false => left; simp [h1]
  | true =>
    cases h2 : (strContainsChar f.fname '.' || f.fname.data.head? == some '.') with
    | true => left; simp [h2]
    | false =>
      rw [Bool.or_eq_false_iff] at h2
      cases h3 : (f.mode &&& 0o111 != 0) with
      | false => left; simp [h2.1, h2.2, h3]
      | true =>
        rw [bne_iff_ne] at h3
        cases h4 : st.known_execs.contains f.fname with
        | true => left; simp [h2.1, h2.2, h3, h4]
        | false =>
          cases h5 : st.seen_names.contains f.fname with
          | true => left; simp [h2.1, h2.2, h3, h4, h5]
          | false =>
            right
            refine ⟨rfl, h2.1, ?_, h3, rfl, rfl, ?_⟩
            · intro hc
              have : (f.fname.data.head? == some '.') = true := by
                simp [hc]
              rw [this] at h2
              exact Bool.false_ne_true h2.2.symm
            · simp [h2.1, h2.2, h3, h4, h5, pathEntity]

lemma processPathDir_cases (db : Database) (now : Nat) (st : ScanState)
    (d : PathDir) :
    (processPathDir db now st d = st ∧
      (d.dirExists = false ∨ d.is_dir = false ∨ pathExcluded d.path = true)) ∨
    (d.dirExists = true ∧ d.is_dir = true ∧ pathExcluded d.path = false ∧
      processPathDir db now st d = d.files.foldl (processPathFile db now) st) := by
  unfold processPathDir
  cases h1 : d.dirExists with
  | false => left; exact ⟨by simp [h1], Or.inl rfl⟩
  | true =>
    cases h2 : d.is_dir with
    | false => left; exact ⟨by simp [h2], Or.inr (Or.inl rfl)⟩
    | true =>
      cases h3 : pathExcluded d.path with
      | true => left; exact ⟨by simp [h1, h2, h3], Or.inr (Or.inr rfl)⟩
      | false => right; exact ⟨rfl, rfl, rfl, by simp [h1, h2, h3]⟩

-- ===========================================================================
-- Helper lemmas: growth and invariants of the scan state
-- ===========================================================================

/-- Scan steps only append entries and only grow the two seen-sets. -/
def ScanGrows (st st' : ScanState) : Prop :=
  (∃ t, st'.apps = st.apps ++ t) ∧
  (∀ x, x ∈ st.seen_names → x ∈ st'.seen_names) ∧
  (∀ x, x ∈ st.known_execs → x ∈ st'.known_execs)

lemma ScanGrows.rfl (st : ScanState) : ScanGrows st st :=
  ⟨⟨[], by simp⟩, fun _ h => h, fun _ h => h⟩

lemma ScanGrows.trans {a b c : ScanState} (h1 : ScanGrows a b)
    (h2 : ScanGrows b c) : ScanGrows a c := by
  obtain ⟨⟨t1, ht1⟩, hs1, hk1⟩ := h1
  obtain ⟨⟨t2, ht2⟩, hs2, hk2⟩ := h2
  exact ⟨⟨t1 ++ t2, by simp [ht2, ht1]⟩,
    fun x hx => hs2 x (hs1 x hx), fun x hx => hk2 x (hk1 x hx)⟩

lemma grows_processDesktopFile (db : Database) (now : Nat) (st : ScanState)
    (f : DesktopFile) : ScanGrows st (processDesktopFile db now st f) := by
  rcases processDesktopFile_cases db now st f with h | ⟨_, _, _, _, ⟨_, h⟩ | ⟨_, h⟩⟩
  · rw [h]; exact ScanGrows.rfl st
  · rw [h]
    exact ⟨⟨[], by simp⟩, fun x hx => hx, fun x hx => by simp [hx]⟩
  · rw [h]
    exact ⟨⟨[desktopEntity db now f], by simp⟩,
      fun x hx => by simp [hx], fun x hx => by simp [hx]⟩

lemma grows_processPathFile (db : Database) (now : Nat) (st : ScanState)
    (f : PathFile) : ScanGrows st (processPathFile db now st f) := by
  rcases processPathFile_cases db now st f with h | ⟨_, _, _, _, _, _, h⟩
  · rw [h]; exact ScanGrows.rfl st
  · rw [h]
    exact ⟨⟨[pathEntity db now f.fname], by simp⟩,
      fun x hx => by simp [hx], fun x hx => hx⟩

lemma grows_processPathDir (db : Database) (now : Nat) (st : ScanState)
    (d : PathDir) : ScanGrows st (processPathDir db now st d) := by
  rcases processPathDir_cases db now st d with ⟨h, _⟩ | ⟨_, _, _, h⟩
  · rw [h]; exact ScanGrows.rfl st
  · rw [h]
    exact foldl_chain _ ScanGrows.rfl (fun _ _ _ => ScanGrows.trans)
      (grows_processPathFile db now) d.files st

lemma grows_foldl_desktop (db : Database) (now : Nat) (l : List DesktopFile)
    (st : ScanState) : ScanGrows st (l.foldl (processDesktopFile db now) st) :=
  foldl_chain _ ScanGrows.rfl (fun _ _ _ => ScanGrows.trans)
    (grows_processDesktopFile db now) l st

lemma grows_foldl_dirs (db : Database) (now : Nat) (l : List PathDir)
    (st : ScanState) : ScanGrows st (l.foldl (processPathDir db now) st) :=
  foldl_chain _ ScanGrows.rfl (fun _ _ _ => ScanGrows.trans)
    (grows_processPathDir db now) l st

/-- Names of accumulated entries are distinct and all recorded in
`seen_names`. -/
def NamesInv (st : ScanState) : Prop :=
  (st.apps.map AppEntry.name).Nodup ∧ ∀ e ∈ st.apps, e.name ∈ st.seen_names

lemma namesInv_push {st : ScanState} (e : AppEntry) (hinv : NamesInv st)
    (hfresh : st.seen_names.contains e.name = false) :
    NamesInv ⟨st.apps ++ [e], e.name :: st.seen_names, st.known_execs⟩ := by
  obtain ⟨hnd, hseen⟩ := hinv
  have hfresh' : e.name ∉ st.seen_names := by simpa using hfresh
  constructor
  · simp only [List.map_append, List.map_cons, List.map_nil]
    rw [List.nodup_append]
    refine ⟨hnd, by simp, ?_⟩
    intro x hx
    simp only [List.mem_singleton]
    intro hx'
    rcases List.mem_map.mp hx with ⟨a, ha, rfl⟩
    exact hfresh' (hx' ▸ hseen a ha)
  · intro x hx
    rcases List.mem_append.mp hx with hx | hx
    · exact List.mem_cons_of_mem _ (hseen x hx)
    · simp only [List.mem_singleton] at hx
      simp [hx]

lemma namesInv_processDesktopFile (db : Database) (now : Nat) (st : ScanState)
    (f : DesktopFile) (hinv : NamesInv st) :
    NamesInv (processDesktopFile db now st f) := by
  rcases processDesktopFile_cases db now st f with h | ⟨_, _, _, _, ⟨_, h⟩ | ⟨hfr, h⟩⟩
  · rw [h]; exact hinv
  · rw [h]; exact hinv
  · rw [h]
    exact namesInv_push (desktopEntity db now f) hinv (by simpa [desktopEntity] using hfr)

lemma namesInv_processPathFile (db : Database) (now : Nat) (st : ScanState)
    (f : PathFile) (hinv : NamesInv st) :
    NamesInv (processPathFile db now st f) := by
  rcases processPathFile_cases db now st f with h | ⟨_, _, _, _, _, hfr, h⟩
  · rw [h]; exact hinv
  · rw [h]
    exact namesInv_push (pathEntity db now f.fname) hinv (by simpa [pathEntity] using hfr)

lemma namesInv_processPathDir (db : Database) (now : Nat) (st : ScanState)
    (d : PathDir) (hinv : NamesInv st) :
    NamesInv (processPathDir db now st d) := by
  rcases processPathDir_cases db now st d with ⟨h, _⟩ | ⟨_, _, _, h⟩
  · rw [h]; exact hinv
  · rw [h]
    exact foldl_invariant _ (namesInv_processPathFile db now) d.files st hinv

/-- Every accumulated entry carries the derived view recomputed from the
store data of its own name. -/
def DerivedInv (db : Database) (now : Nat) (st : ScanState) : Prop :=
  ∀ e ∈ st.apps,
    e.total_score =
      totalScore (get_app_data db e.name).score (get_app_data db e.name).usage ∧
    e.is_dormant = isDormant now (get_app_data db e.name).last_used

lemma derivedInv_processDesktopFile (db : Database) (now : Nat) (st : ScanState)
    (f : DesktopFile) (hinv : DerivedInv db now st) :
    DerivedInv db now (processDesktopFile db now st f) := by
  rcases processDesktopFile_cases db now st f with h | ⟨_, _, _, _, ⟨_, h⟩ | ⟨_, h⟩⟩
  · rw [h]; exact hinv
  · rw [h]; exact hinv
  · rw [h]
    intro e he
    rcases List.mem_append.mp he with he | he
    · exact hinv e he
    · simp only [List.mem_singleton] at he
      subst he
      exact ⟨rfl, rfl⟩

lemma derivedInv_processPathFile (db : Database) (now : Nat) (st : ScanState)
    (f : PathFile) (hinv : DerivedInv db now st) :
    DerivedInv db now (processPathFile db now st f) := by
  rcases processPathFile_cases db now st f with h | ⟨_, _, _, _, _, _, h⟩
  · rw [h]; exact hinv
  · rw [h]
    intro e he
    rcases List.mem_append.mp he with he | he
    · exact hinv e he
    · simp only [List.mem_singleton] at he
      subst he
      exact ⟨rfl, rfl⟩

lemma derivedInv_processPathDir (db : Database) (now : Nat) (st : ScanState)
    (d : PathDir) (hinv : DerivedInv db now st) :
    DerivedInv db now (processPathDir db now st d) := by
  rcases processPathDir_cases db now st d with ⟨h, _⟩ | ⟨_, _, _, h⟩
  · rw [h]; exact hinv
  · rw [h]
    exact foldl_invariant _ (derivedInv_processPathFile db now) d.files st hinv

/-- Desktop-phase entries are never CLI-only. -/
def NoCliInv (st : ScanState) : Prop := ∀ e ∈ st.apps, e.is_cli_only = false

lemma noCliInv_processDesktopFile (db : Database) (now : Nat) (st : ScanState)
    (f : DesktopFile) (hinv : NoCliInv st) :
    NoCliInv (processDesktopFile db now st f) := by
  rcases processDesktopFile_cases db now st f with h | ⟨_, _, _, _, ⟨_, h⟩ | ⟨_, h⟩⟩
  · rw [h]; exact hinv
  · rw [h]; exact hinv
  · rw [h]
    intro e he
    rcases List.mem_append.mp he with he | he
    · exact hinv e he
    · simp only [List.mem_singleton] at he
      subst he
      rfl

/-- During the PATH phase `known_execs` is frozen at `E` and every CLI-only
entry's name was absent from `E` when it was pushed. -/
def PathPhaseInv (E : List String) (st : ScanState) : Prop :=
  st.known_execs = E ∧
  ∀ e ∈ st.apps, e.is_cli_only = true → e.name ∉ E

lemma pathPhaseInv_processPathFile (db : Database) (now : Nat) (E : List String)
    (st : ScanState) (f : PathFile) (hinv : PathPhaseInv E st) :
    PathPhaseInv E (processPathFile db now st f) := by
  obtain ⟨hE, hcli⟩ := hinv
  rcases processPathFile_cases db now st f with h | ⟨_, _, _, _, hke, _, h⟩
  · rw [h]; exact ⟨hE, hcli⟩
  · rw [h]
    refine ⟨hE, ?_⟩
    intro e he hc
    rcases List.mem_append.mp he with he | he
    · exact hcli e he hc
    · simp only [List.mem_singleton] at he
      subst he
      have hk : st.known_execs.contains f.fname = false := hke
      rw [hE] at hk
      simpa [pathEntity] using hk

lemma pathPhaseInv_processPathDir (db : Database) (now : Nat) (E : List String)
    (st : ScanState) (d : PathDir) (hinv : PathPhaseInv E st) :
    PathPhaseInv E (processPathDir db now st d) := by
  rcases processPathDir_cases db now st d with ⟨h, _⟩ | ⟨_, _, _, h⟩
  · rw [h]; exact hinv
  · rw [h]
    exact foldl_invariant _ (pathPhaseInv_processPathFile db now E) d.files st hinv

-- ===========================================================================
-- Helper lemmas: sorting, enrichment and scan membership
-- ===========================================================================

lemma sortApps_perm (l : List AppEntry) : List.Perm (sortApps l) l :=
  List.perm_insertionSort _ l

lemma mem_sortApps {e : AppEntry} {l : List AppEntry} : e ∈ sortApps l ↔ e ∈ l :=
  (sortApps_perm l).mem_iff

lemma mem_enrich {e : AppEntry} {apps : List AppEntry} {db : Database} {now : Nat} :
    e ∈ enrich_apps_with_db_data apps db now ↔
      ∃ a ∈ apps, e = enrichEntry db now a := by
  unfold enrich_apps_with_db_data
  rw [mem_sortApps, List.mem_map]
  constructor
  · rintro ⟨a, ha, rfl⟩; exact ⟨a, ha, rfl⟩
  · rintro ⟨a, ha, rfl⟩; exact ⟨a, ha, rfl⟩

lemma scan_state_spec (db : Database) (now : Nat) (dfs : List DesktopFile)
    (dirs : List PathDir) :
    DerivedInv db now
      (dirs.foldl (processPathDir db now)
        (dfs.foldl (processDesktopFile db now) ⟨[], [], []⟩)) := by
  apply foldl_invariant _ (derivedInv_processPathDir db now)
  apply foldl_invariant _ (derivedInv_processDesktopFile db now)
  intro e he
  simp at he

lemma scan_apps_fresh_entries (db : Database) (now : Nat) (dfs : List DesktopFile)
    (dirs : List PathDir) :
    ∀ e ∈ scan_apps_fresh db now dfs dirs,
      e.total_score =
        totalScore (get_app_data db e.name).score (get_app_data db e.name).usage ∧
      e.is_dormant = isDormant now (get_app_data db e.name).last_used := by
  intro e he
  unfold scan_apps_fresh at he
  rw [mem_sortApps] at he
  exact scan_state_spec db now dfs dirs e he

lemma isDormant_iff (now lu : Nat) :
    isDormant now lu = true ↔ lu ≠ 0 ∧ now - lu > 2592000 := by
  simp only [isDormant, thirty_days, Bool.and_eq_true, decide_eq_true_eq]
  omega

lemma isDormant_future {now lu : Nat} (h : now < lu) : isDormant now lu = false := by
  have h0 : now - lu = 0 := Nat.sub_eq_zero_of_le (le_of_lt h)
  simp [isDormant, h0, thirty_days]

-- ===========================================================================
-- Claim C1
-- ===========================================================================

/-- Claim C1: for every enriched entity, on both the fresh-scan path and the
cache-load path, the derived `total_score` equals the stored base score plus
ten times the stored usage counter (`total_score = score + usage * 10`), with
defaults `score = 0` and `usage = 0` when the entity has no preference
record. -/
theorem C1_total_score_composition (db : Database) (now : Nat)
    (apps : List AppEntry) (dfs : List DesktopFile) (dirs : List PathDir) :
    (∀ e ∈ enrich_apps_with_db_data apps db now,
      e.total_score =
        (get_app_data db e.name).score + (get_app_data db e.name).usage * 10) ∧
    (∀ e ∈ scan_apps_fresh db now dfs dirs,
      e.total_score =
        (get_app_data db e.name).score + (get_app_data db e.name).usage * 10) ∧
    (∀ n, db.find? (fun r => r.1 == n) = none →
      get_app_data db n = ⟨false, 0, 0, 0⟩) := by
  refine ⟨?_, ?_, ?_⟩
  · intro e he
    rcases mem_enrich.mp he with ⟨a, ha, rfl⟩
    rfl
  · intro e he
    exact (scan_apps_fresh_entries db now dfs dirs e he).1
  · intro n hn
    simp [get_app_data, hn, defaultPref]

theorem C1_total_score_composition_witness :
    (⟨"a", "a", false, 32, false⟩ : AppEntry) ∈
        enrich_apps_with_db_data [⟨"a", "a", false, 0, false⟩]
          [("a", ⟨false, 2, 3, 7⟩)] 100 ∧
    (⟨"a", "a", false, 32, false⟩ : AppEntry).total_score =
      (get_app_data [("a", ⟨false, 2, 3, 7⟩)] "a").score +
        (get_app_data [("a", ⟨false, 2, 3, 7⟩)] "a").usage * 10 :=
  ⟨by decide,
   (C1_total_score_composition [("a", ⟨false, 2, 3, 7⟩)] 100
       [⟨"a", "a", false, 0, false⟩] [] []).1 _ (by decide)⟩

-- ===========================================================================
-- Claim C2
-- ===========================================================================

/-- Claim C2: for every enriched entity, `is_dormant` is true exactly when
`last_used` is nonzero and `now - last_used` is strictly greater than
2,592,000 seconds, on both paths; an entity with `last_used = now - 2592001`
is dormant, one with `last_used = now - 2592000` is not, and one with
`last_used = 0` never is. -/
theorem C2_dormancy_boundary (db : Database) (now : Nat) (apps : List AppEntry)
    (dfs : List DesktopFile) (dirs : List PathDir) (hnow : 2592001 < now) :
    (∀ e ∈ enrich_apps_with_db_data apps db now,
      (e.is_dormant = true ↔
        (get_app_data db e.name).last_used ≠ 0 ∧
          now - (get_app_data db e.name).last_used > 2592000)) ∧
    (∀ e ∈ scan_apps_fresh db now dfs dirs,
      (e.is_dormant = true ↔
        (get_app_data db e.name).last_used ≠ 0 ∧
          now - (get_app_data db e.name).last_used > 2592000)) ∧
    isDormant now (now - 2592001) = true ∧
    isDormant now (now - 2592000) = false ∧
    isDormant now 0 = false := by
  refine ⟨?_, ?_, ?_, ?_, ?_⟩
  · intro e he
    rcases mem_enrich.mp he with ⟨a, ha, rfl⟩
    exact isDormant_iff now _
  · intro e he
    rw [(scan_apps_fresh_entries db now dfs dirs e he).2]
    exact isDormant_iff now _
  · rw [isDormant_iff]
    exact ⟨by omega, by omega⟩
  · simp only [Bool.eq_false_iff, Ne, isDormant_iff]
    rintro ⟨h1, h2⟩
    omega
  · simp [isDormant]

theorem C2_dormancy_boundary_witness :
    2592001 < 3000000 ∧
    isDormant 3000000 (3000000 - 2592001) = true ∧
    isDormant 3000000 (3000000 - 2592000) = false :=
  ⟨by norm_num,
   (C2_dormancy_boundary [] 3000000 [] [] [] (by norm_num)).2.2.1,
   (C2_dormancy_boundary [] 3000000 [] [] [] (by norm_num)).2.2.2.1⟩

-- ===========================================================================
-- Claim C10
-- ===========================================================================

/-- Claim C10: a preference record whose `last_used` lies in the future
(`last_used > now`) is classified as not dormant on both enrichment paths:
the elapsed time uses saturating subtraction, yielding zero. -/
theorem C10_future_last_used_not_dormant (db : Database) (now : Nat)
    (apps : List AppEntry) (dfs : List DesktopFile) (dirs : List PathDir) :
    (∀ e ∈ enrich_apps_with_db_data apps db now,
      now < (get_app_data db e.name).last_used → e.is_dormant = false) ∧
    (∀ e ∈ scan_apps_fresh db now dfs dirs,
      now < (get_app_data db e.name).last_used → e.is_dormant = false) := by
  constructor
  · intro e he hf
    rcases mem_enrich.mp he with ⟨a, ha, rfl⟩
    exact isDormant_future hf
  · intro e he hf
    rw [(scan_apps_fresh_entries db now dfs dirs e he).2]
    exact isDormant_future hf

theorem C10_future_last_used_not_dormant_witness :
    (⟨"a", "a", false, 0, false⟩ : AppEntry) ∈
        enrich_apps_with_db_data [⟨"a", "a", false, 0, false⟩]
          [("a", ⟨false, 0, 0, 100⟩)] 5 ∧
    5 < (get_app_data [("a", ⟨false, 0, 0, 100⟩)] "a").last_used ∧
    (⟨"a", "a", false, 0, false⟩ : AppEntry).is_dormant = false :=
  ⟨by decide, by decide,
   (C10_future_last_used_not_dormant [("a", ⟨false, 0, 0, 100⟩)] 5
       [⟨"a", "a", false, 0, false⟩] [] []).1 _ (by decide) (by decide)⟩

-- ===========================================================================
-- Claim C7
-- ===========================================================================

/-- Claim C7: writing the discovery cache and loading it back reproduces
exactly the same `(name, exec, is_cli_only)` triples in the same order, and
the loaded entries carry no persisted score or dormancy values
(`total_score = 0`, `is_dormant = false`, to be recomputed by enrichment). -/
theorem C7_cache_roundtrip (apps : List AppEntry) :
    (load_app_cache (save_app_cache apps)).map
        (fun a => (a.name, a.exec, a.is_cli_only)) =
      apps.map (fun a => (a.name, a.exec, a.is_cli_only)) ∧
    ∀ e ∈ load_app_cache (save_app_cache apps),
      e.total_score = 0 ∧ e.is_dormant = false := by
  constructor
  · simp [load_app_cache, save_app_cache, List.map_map]
  · intro e he
    simp only [load_app_cache, save_app_cache, List.map_map] at he
    rcases List.mem_map.mp he with ⟨a, ha, rfl⟩
    exact ⟨rfl, rfl⟩

theorem C7_cache_roundtrip_witness :
    (⟨"a", "x", true, 0, false⟩ : AppEntry) ∈
        load_app_cache (save_app_cache [⟨"a", "x", true, 9, true⟩]) ∧
    (⟨"a", "x", true, 0, false⟩ : AppEntry).total_score = 0 ∧
    (⟨"a", "x", true, 0, false⟩ : AppEntry).is_dormant = false :=
  ⟨by decide,
   (C7_cache_roundtrip [⟨"a", "x", true, 9, true⟩]).2 _ (by decide)⟩

-- ===========================================================================
-- Claim C3
-- ===========================================================================

lemma enrich_counted_fold (db : Database) (now : Nat) :
    ∀ (apps : List AppEntry) (acc : List AppEntry × Nat),
      apps.foldl
        (fun (acc : List AppEntry × Nat) a =>
          let (d, q) := get_app_data_counted db a.name
          (acc.1 ++
            [{ a with
                total_score := totalScore d.score d.usage
                is_dormant := isDormant now d.last_used }],
            acc.2 + q))
        acc =
      (acc.1 ++ apps.map (enrichEntry db now), acc.2 + apps.length) := by
  intro apps
  induction apps with
  | nil => intro acc; simp
  | cons x xs ih =>
    intro acc
    simp only [List.foldl_cons, List.map_cons, List.length_cons]
    rw [ih]
    simp only [get_app_data_counted]
    rw [Prod.mk.injEq]
    refine ⟨?_, by omega⟩
    simp [enrichEntry, List.append_assoc]

/-- Claim C3 fails on the code: a cache-load enrichment pass over two
entities issues two preference-store point queries, not the single
full-table read the claim asserts for both paths. -/
theorem C3_counterexample :
    (enrich_apps_with_db_data_counted
        [⟨"a", "a", false, 0, false⟩, ⟨"b", "b", false, 0, false⟩] [] 0).2 = 2 ∧
    (enrich_apps_with_db_data_counted
        [⟨"a", "a", false, 0, false⟩, ⟨"b", "b", false, 0, false⟩] [] 0).2 ≠ 1 := by
  constructor
  · decide
  · decide

/-- Claim C3 (amended): the fresh-scan path reads preference data through a
single full-table read — one store query regardless of the number of
entities — while the cache-load enrichment path issues one `get_app_data`
point query per entity, i.e. K queries for K entities; both instrumented
pipelines compute the same entity lists as the plain ones. -/
theorem C3_query_counts (db : Database) (now : Nat) (apps : List AppEntry)
    (dfs : List DesktopFile) (dirs : List PathDir) :
    (scan_apps_fresh_counted db now dfs dirs).2 = 1 ∧
    (scan_apps_fresh_counted db now dfs dirs).1 = scan_apps_fresh db now dfs dirs ∧
    (enrich_apps_with_db_data_counted apps db now).2 = apps.length ∧
    (enrich_apps_with_db_data_counted apps db now).1 =
      enrich_apps_with_db_data apps db now := by
  refine ⟨rfl, rfl, ?_, ?_⟩
  · unfold enrich_apps_with_db_data_counted
    rw [enrich_counted_fold]
    simp
  · unfold enrich_apps_with_db_data_counted enrich_apps_with_db_data
    rw [enrich_counted_fold]
    simp

-- ===========================================================================
-- Claim C9
-- ===========================================================================

/-- Claim C9: a desktop entry file whose Name attribute is exactly
`"Unknown"` produces no entity, even when not marked NoDisplay and with a
nonempty Exec command; a missing display name is defaulted to `"Unknown"`
and then filtered, so a genuine `"Unknown"` is indistinguishable from an
absent name. -/
theorem C9_unknown_name_filtered (db : Database) (now : Nat) (f : DesktopFile)
    (hsec : f.hasDesktopSection = true) (hnd : noDisplayOf f = false)
    (hname : f.nameAttr = some "Unknown") (hexec : execOf f ≠ "") :
    (∀ st, processDesktopFile db now st f = st) ∧
    (∀ dfs1 dfs2 dirs,
      scan_apps_fresh db now (dfs1 ++ f :: dfs2) dirs =
        scan_apps_fresh db now (dfs1 ++ dfs2) dirs) ∧
    (∀ st, processDesktopFile db now st f =
      processDesktopFile db now st
        { hasDesktopSection := f.hasDesktopSection
          noDisplayAttr := f.noDisplayAttr
          nameAttr := none
          execAttr := f.execAttr }) := by
  have hnm : nameOf f = "Unknown" := by simp [nameOf, hname]
  have hid : ∀ st, processDesktopFile db now st f = st := by
    intro st
    unfold processDesktopFile
    simp [hsec, hnd, hnm]
  refine ⟨hid, ?_, ?_⟩
  · intro dfs1 dfs2 dirs
    simp only [scan_apps_fresh]
    rw [List.foldl_append, List.foldl_cons, hid, ← List.foldl_append]
  · intro st
    rw [hid]
    have hnd2 : (f.noDisplayAttr.map (fun s => s == "true")).getD false = false := hnd
    unfold processDesktopFile
    simp [hsec, noDisplayOf, nameOf, hnd2]

theorem C9_unknown_name_filtered_witness :
    execOf ⟨true, none, some "Unknown", some "/usr/bin/x"⟩ ≠ "" ∧
    processDesktopFile [] 0 ⟨[], [], []⟩
      ⟨true, none, some "Unknown", some "/usr/bin/x"⟩ = ⟨[], [], []⟩ :=
  ⟨by decide,
   (C9_unknown_name_filtered [] 0 ⟨true, none, some "Unknown", some "/usr/bin/x"⟩
       rfl rfl rfl (by decide)).1 ⟨[], [], []⟩⟩

-- ===========================================================================
-- Claim C8
-- ===========================================================================

/-- Claim C8 fails on the code: the exclusion test is a raw substring test,
not a path-segment test. `/usr/libexec` lies under no `sbin`, `games` or
`lib` path segment, yet the scan excludes it (while a non-excluded directory
with the same eligible file does contribute an entity). -/
theorem C8_counterexample :
    pathExcluded "/usr/libexec" = true ∧
    segmentExcluded "/usr/libexec" = false ∧
    processPathDir [] 0 ⟨[], [], []⟩
        ⟨"/usr/libexec", true, true, [⟨"foo", true, 0o755⟩]⟩ = ⟨[], [], []⟩ ∧
    processPathDir [] 0 ⟨[], [], []⟩
        ⟨"/usr/bin", true, true, [⟨"foo", true, 0o755⟩]⟩ ≠ ⟨[], [], []⟩ := by
  refine ⟨by decide, by decide, by decide, by decide⟩

/-- Claim C8 (amended): the PATH scan skips a directory exactly when its raw
path string contains `"/sbin"`, `"/games"` or `"/lib"` as a substring (so
e.g. `/usr/libexec` is excluded although it lies under no such path
segment); every non-excluded existing directory is folded over its files,
a file is skipped unless it is a regular file with at least one executable
permission bit whose name neither contains `'.'` nor starts with `'.'`, and
every entity a file contributes carries that file's name. -/
theorem C8_path_scan_filters (db : Database) (now : Nat) (st : ScanState)
    (d : PathDir) (f : PathFile) :
    (d.dirExists = false ∨ d.is_dir = false ∨ pathExcluded d.path = true →
      processPathDir db now st d = st) ∧
    (d.dirExists = true → d.is_dir = true → pathExcluded d.path = false →
      processPathDir db now st d = d.files.foldl (processPathFile db now) st) ∧
    (pathExcluded d.path = true ↔
      containsL "/sbin".data d.path.data = true ∨
      containsL "/games".data d.path.data = true ∨
      containsL "/lib".data d.path.data = true) ∧
    (f.is_file = false ∨ strContainsChar f.fname '.' = true ∨
        f.fname.data.head? = some '.' ∨ f.mode &&& 0o111 = 0 →
      processPathFile db now st f = st) ∧
    (∀ e ∈ (processPathFile db now st f).apps, e ∉ st.apps →
      f.is_file = true ∧ strContainsChar f.fname '.' = false ∧
      f.fname.data.head? ≠ some '.' ∧ f.mode &&& 0o111 ≠ 0 ∧
      e.name = f.fname ∧ e.exec = f.fname ∧ e.is_cli_only = true) := by
  refine ⟨?_, ?_, ?_, ?_, ?_⟩
  · intro hyp
    rcases processPathDir_cases db now st d with ⟨h, _⟩ | ⟨he, hdir, hex, _⟩
    · exact h
    · rcases hyp with h1 | h1 | h1
      · rw [he] at h1; exact absurd h1 (by simp)
      · rw [hdir] at h1; exact absurd h1 (by simp)
      · rw [h1] at hex; exact absurd hex (by simp)
  · intro h1 h2 h3
    rcases processPathDir_cases db now st d with ⟨_, hdisj⟩ | ⟨_, _, _, h⟩
    · rcases hdisj with hh | hh | hh
      · rw [h1] at hh; exact absurd hh (by simp)
      · rw [h2] at hh; exact absurd hh (by simp)
      · rw [h3] at hh; exact absurd hh (by simp)
    · exact h
  · simp [pathExcluded, or_assoc]
  · intro hyp
    rcases processPathFile_cases db now st f with h | ⟨h1, h2, h3, h4, _, _, _⟩
    · exact h
    · rcases hyp with hh | hh | hh | hh
      · rw [h1] at hh; exact absurd hh (by simp)
      · rw [hh] at h2; exact absurd h2 (by simp)
      · exact absurd hh h3
      · exact absurd hh h4
  · intro e he hnew
    rcases processPathFile_cases db now st f with h | ⟨h1, h2, h3, h4, _, _, h⟩
    · rw [h] at he; exact absurd he hnew
    · rw [h] at he
      rcases List.mem_append.mp he with he | he
      · exact absurd he hnew
      · simp only [List.mem_singleton] at he
        subst he
        exact ⟨h1, h2, h3, h4, rfl, rfl, rfl⟩

theorem C8_path_scan_filters_witness :
    pathExcluded "/usr/sbin" = true ∧
    processPathDir [] 0 ⟨[], [], []⟩
      ⟨"/usr/sbin", true, true, [⟨"foo", true, 0o755⟩]⟩ = ⟨[], [], []⟩ :=
  ⟨by decide,
   (C8_path_scan_filters [] 0 ⟨[], [], []⟩
       ⟨"/usr/sbin", true, true, [⟨"foo", true, 0o755⟩]⟩
       ⟨"foo", true, 0o755⟩).1 (Or.inr (Or.inr (by decide)))⟩

-- ===========================================================================
-- Claim C4
-- ===========================================================================

lemma namesInv_init : NamesInv ⟨[], [], []⟩ := by
  constructor
  · simp
  · intro e he; simp at he

lemma noCliInv_init : NoCliInv ⟨[], [], []⟩ := by
  intro e he; simp at he

/-- The accepting branch of the desktop step: an eligible file whose name is
not yet seen pushes its entity and records its simple binary name. -/
lemma processDesktopFile_push (db : Database) (now : Nat) (st : ScanState)
    (f : DesktopFile) (hsec : f.hasDesktopSection = true)
    (hnd : noDisplayOf f = false) (hexec : execOf f ≠ "")
    (hname : nameOf f ≠ "Unknown") (hfresh : nameOf f ∉ st.seen_names) :
    processDesktopFile db now st f =
      { apps := st.apps ++ [desktopEntity db now f]
        seen_names := nameOf f :: st.seen_names
        known_execs := simpleBinOf (execOf f) :: st.known_execs } := by
  unfold processDesktopFile
  simp [hsec, hnd, hexec, hname, hfresh, desktopEntity]

/-- Claim C4: when a desktop entry (with a section, displayable, nonempty
Exec, Name not "Unknown", and a Name not already taken by an earlier desktop
entry) records a simple executable name, then in the fresh discovery pass the
desktop-sourced entity survives, no PATH-sourced entity with that simple
executable name survives, and entity names in the resulting list are pairwise
distinct (first occurrence wins). -/
theorem C4_desktop_wins_dedup (db : Database) (now : Nat)
    (pre post : List DesktopFile) (f : DesktopFile) (dirs : List PathDir)
    (hsec : f.hasDesktopSection = true) (hnd : noDisplayOf f = false)
    (hexec : execOf f ≠ "") (hname : nameOf f ≠ "Unknown")
    (hfresh : nameOf f ∉
      (pre.foldl (processDesktopFile db now) ⟨[], [], []⟩).seen_names) :
    ((scan_apps_fresh db now (pre ++ f :: post) dirs).map AppEntry.name).Nodup ∧
    (∃ e ∈ scan_apps_fresh db now (pre ++ f :: post) dirs,
      e.name = nameOf f ∧ e.exec = execOf f ∧ e.is_cli_only = false) ∧
    (∀ e ∈ scan_apps_fresh db now (pre ++ f :: post) dirs,
      e.is_cli_only = true → e.name ≠ simpleBinOf (execOf f)) := by
  obtain ⟨stPre, hPre⟩ : ∃ s, pre.foldl (processDesktopFile db now) ⟨[], [], []⟩ = s :=
    ⟨_, rfl⟩
  rw [hPre] at hfresh
  obtain ⟨stF, hF⟩ : ∃ s, processDesktopFile db now stPre f = s := ⟨_, rfl⟩
  obtain ⟨stD, hD⟩ : ∃ s, post.foldl (processDesktopFile db now) stF = s := ⟨_, rfl⟩
  obtain ⟨final, hFin⟩ : ∃ s, dirs.foldl (processPathDir db now) stD = s := ⟨_, rfl⟩
  have hstep : stF =
      { apps := stPre.apps ++ [desktopEntity db now f]
        seen_names := nameOf f :: stPre.seen_names
        known_execs := simpleBinOf (execOf f) :: stPre.known_execs } := by
    rw [← hF]
    exact processDesktopFile_push db now stPre f hsec hnd hexec hname hfresh
  -- invariants at the end of the desktop phase
  have hnamesPre : NamesInv stPre := by
    rw [← hPre]
    exact foldl_invariant _ (namesInv_processDesktopFile db now) pre _ namesInv_init
  have hnamesF : NamesInv stF := by
    rw [← hF]
    exact namesInv_processDesktopFile db now _ f hnamesPre
  have hnamesD : NamesInv stD := by
    rw [← hD]
    exact foldl_invariant _ (namesInv_processDesktopFile db now) post _ hnamesF
  have hcliPre : NoCliInv stPre := by
    rw [← hPre]
    exact foldl_invariant _ (noCliInv_processDesktopFile db now) pre _ noCliInv_init
  have hcliF : NoCliInv stF := by
    rw [← hF]
    exact noCliInv_processDesktopFile db now _ f hcliPre
  have hcliD : NoCliInv stD := by
    rw [← hD]
    exact foldl_invariant _ (noCliInv_processDesktopFile db now) post _ hcliF
  -- membership facts carried to the end of the desktop phase
  have hgrowD : ScanGrows stF stD := by
    rw [← hD]
    exact grows_foldl_desktop db now post stF
  have hEfD : desktopEntity db now f ∈ stD.apps := by
    obtain ⟨⟨t, ht⟩, _, _⟩ := hgrowD
    rw [ht, hstep]
    exact List.mem_append_left _ (List.mem_append_right _ (List.mem_singleton_self _))
  have hsbD : simpleBinOf (execOf f) ∈ stD.known_execs := by
    obtain ⟨_, _, hk⟩ := hgrowD
    refine hk _ ?_
    rw [hstep]
    exact List.mem_cons_self _ _
  -- PATH phase
  have hppD : PathPhaseInv stD.known_execs stD := by
    refine ⟨rfl, ?_⟩
    intro e he hc
    rw [hcliD e he] at hc
    exact absurd hc (by simp)
  have hppFinal : PathPhaseInv stD.known_execs final := by
    rw [← hFin]
    exact foldl_invariant _ (pathPhaseInv_processPathDir db now stD.known_execs)
      dirs _ hppD
  have hnamesFinal : NamesInv final := by
    rw [← hFin]
    exact foldl_invariant _ (namesInv_processPathDir db now) dirs _ hnamesD
  have hgrowF : ScanGrows stD final := by
    rw [← hFin]
    exact grows_foldl_dirs db now dirs stD
  have hEfFinal : desktopEntity db now f ∈ final.apps := by
    obtain ⟨⟨t, ht⟩, _, _⟩ := hgrowF
    rw [ht]
    exact List.mem_append_left _ hEfD
  -- the scan output is the sorted final entry list
  have hscan : scan_apps_fresh db now (pre ++ f :: post) dirs =
      sortApps final.apps := by
    simp only [scan_apps_fresh]
    rw [List.foldl_append, List.foldl_cons, hPre, hF, hD, hFin]
  refine ⟨?_, ?_, ?_⟩
  · rw [hscan]
    have hp := (sortApps_perm final.apps).map AppEntry.name
    exact hp.nodup_iff.mpr hnamesFinal.1
  · refine ⟨desktopEntity db now f, ?_, rfl, rfl, rfl⟩
    rw [hscan]
    exact mem_sortApps.mpr hEfFinal
  · intro e he hc
    rw [hscan] at he
    have heF : e ∈ final.apps := mem_sortApps.mp he
    have hnotin := hppFinal.2 e heF hc
    intro hEq
    rw [hEq] at hnotin
    exact hnotin hsbD

theorem C4_desktop_wins_dedup_witness :
    nameOf ⟨true, none, some "Vim", some "/usr/bin/vim %F"⟩ ∉
      (([] : List DesktopFile).foldl (processDesktopFile [] 0)
        ⟨[], [], []⟩).seen_names ∧
    ∃ e ∈ scan_apps_fresh [] 0
        ([] ++ ⟨true, none, some "Vim", some "/usr/bin/vim %F"⟩ :: [])
        [⟨"/usr/bin", true, true, [⟨"vim", true, 0o755⟩]⟩],
      e.name = nameOf ⟨true, none, some "Vim", some "/usr/bin/vim %F"⟩ ∧
      e.exec = execOf ⟨true, none, some "Vim", some "/usr/bin/vim %F"⟩ ∧
      e.is_cli_only = false :=
  ⟨by decide,
   (C4_desktop_wins_dedup [] 0 [] [] ⟨true, none, some "Vim", some "/usr/bin/vim %F"⟩
       [⟨"/usr/bin", true, true, [⟨"vim", true, 0o755⟩]⟩]
       rfl rfl (by decide) (by decide) (by decide)).2.1⟩

-- ===========================================================================
-- Claim C5
-- ===========================================================================

instance : IsTrans (Int × AppEntry) fuzzyRel := by
  constructor
  intro a b c hab hbc
  simp only [fuzzyRel, fuzzyLe, Bool.or_eq_true, Bool.and_eq_true,
    decide_eq_true_eq, beq_iff_eq] at *
  rcases hab with h1 | ⟨h1, h1'⟩ <;> rcases hbc with h2 | ⟨h2, h2'⟩
  · exact Or.inl (h2.trans h1)
  · exact Or.inl (h2 ▸ h1)
  · exact Or.inl (h1 ▸ h2)
  · exact Or.inr ⟨h2.trans h1, h2'.trans h1'⟩

instance : IsTotal (Int × AppEntry) fuzzyRel := by
  constructor
  intro a b
  simp only [fuzzyRel, fuzzyLe, Bool.or_eq_true, Bool.and_eq_true,
    decide_eq_true_eq, beq_iff_eq]
  rcases lt_trichotomy a.1 b.1 with h | h | h
  · exact Or.inr (Or.inl h)
  · rcases le_total a.2.total_score b.2.total_score with h' | h'
    · exact Or.inr (Or.inr ⟨h, h'⟩)
    · exact Or.inl (Or.inr ⟨h.symm, h'⟩)
  · exact Or.inl (Or.inl h)

/-- Claim C5: for every non-empty query, the app pipeline returns only
candidates whose names fuzzy-match the query; the scored list is a
permutation of all matches sorted by affinity descending with ties broken by
`total_score` descending; the count cap (50) is applied to the sorted list;
and the dormancy visibility filter is applied last as a pure projection, so
toggling it never changes the relative order of the surviving entries. -/
theorem C5_app_pipeline (matcher : String → String → Option Int)
    (query : String) (apps : List AppEntry) (sd : Bool) (hq : query ≠ "") :
    (∀ e ∈ update_search_apps matcher query apps sd,
      ∃ s, matcher e.name query = some s) ∧
    List.Perm (fuzzySorted matcher query apps) (fuzzyMatches matcher query apps) ∧
    (fuzzySorted matcher query apps).Pairwise
      (fun a b => b.1 < a.1 ∨ (b.1 = a.1 ∧ b.2.total_score ≤ a.2.total_score)) ∧
    fuzzy_search_apps matcher query apps =
      ((fuzzySorted matcher query apps).take 50).map (fun p => p.2) ∧
    (update_search_apps matcher query apps sd).length ≤ 50 ∧
    List.Sublist (update_search_apps matcher query apps false)
      (update_search_apps matcher query apps true) := by
  have hlen : (fuzzy_search_apps matcher query apps).length ≤ 50 := by
    unfold fuzzy_search_apps
    rw [List.length_map]
    exact List.length_take_le _ _
  refine ⟨?_, List.perm_insertionSort _ _, ?_, rfl, ?_, ?_⟩
  · intro e he
    unfold update_search_apps at he
    rw [if_neg hq] at he
    have he2 := List.mem_of_mem_filter he
    unfold fuzzy_search_apps at he2
    rcases List.mem_map.mp he2 with ⟨p, hp, rfl⟩
    have hp2 : p ∈ fuzzySorted matcher query apps := List.take_subset _ _ hp
    have hp3 : p ∈ fuzzyMatches matcher query apps :=
      (List.perm_insertionSort _ _).mem_iff.mp hp2
    rcases List.mem_filterMap.mp hp3 with ⟨a, _, hmap⟩
    cases hm : matcher a.name query with
    | none => rw [hm] at hmap; simp at hmap
    | some s =>
      rw [hm] at hmap
      have hp4 : p = (s, a) := by
        simpa using hmap.symm
      rw [hp4]
      exact ⟨s, hm⟩
  · have hs : (fuzzySorted matcher query apps).Pairwise fuzzyRel :=
      List.sorted_insertionSort fuzzyRel _
    refine hs.imp ?_
    intro a b hab
    simpa only [fuzzyRel, fuzzyLe, Bool.or_eq_true, Bool.and_eq_true,
      decide_eq_true_eq, beq_iff_eq] using hab
  · unfold update_search_apps
    rw [if_neg hq]
    exact le_trans (List.length_filter_le _ _) hlen
  · unfold update_search_apps
    rw [if_neg hq]
    have htrue : ∀ l : List AppEntry,
        l.filter (fun app => (true : Bool) || !app.is_dormant) = l := by
      intro l
      simp
    rw [htrue]
    exact List.filter_sublist _

theorem C5_app_pipeline_witness :
    ("vi" : String) ≠ "" ∧
    List.Sublist
      (update_search_apps (fun n q => if q.data.all (fun c => n.data.contains c)
        then some (Int.ofNat n.data.length) else none) "vi"
        [⟨"vim", "vim", true, 3, true⟩, ⟨"vivaldi", "vivaldi", false, 9, false⟩]
        false)
      (update_search_apps (fun n q => if q.data.all (fun c => n.data.contains c)
        then some (Int.ofNat n.data.length) else none) "vi"
        [⟨"vim", "vim", true, 3, true⟩, ⟨"vivaldi", "vivaldi", false, 9, false⟩]
        true) :=
  ⟨by decide,
   (C5_app_pipeline (fun n q => if q.data.all (fun c => n.data.contains c)
        then some (Int.ofNat n.data.length) else none) "vi"
        [⟨"vim", "vim", true, 3, true⟩, ⟨"vivaldi", "vivaldi", false, 9, false⟩]
        false (by decide)).2.2.2.2.2⟩

-- ===========================================================================
-- Claim C6
-- ===========================================================================

instance : IsTrans (Int × String) fileRel := by
  constructor
  intro a b c hab hbc
  simp only [fileRel, fileLe, decide_eq_true_eq] at *
  exact hbc.trans hab

instance : IsTotal (Int × String) fileRel := by
  constructor
  intro a b
  simp only [fileRel, fileLe, decide_eq_true_eq]
  exact (le_total b.1 a.1)

lemma collectCandidates_stop (ql : String) (L : Nat) (w : List WalkEntry)
    (acc : List String) (h : acc.length ≥ L * 10) :
    collectCandidates ql L w acc = acc := by
  cases w with
  | nil => rfl
  | cons e rest =>
    unfold collectCandidates
    rw [if_pos h]

lemma collectCandidates_length (ql : String) (L : Nat) :
    ∀ (w : List WalkEntry) (acc : List String), acc.length ≤ L * 10 →
      (collectCandidates ql L w acc).length ≤ L * 10 := by
  intro w
  induction w with
  | nil => intro acc h; simpa [collectCandidates] using h
  | cons e rest ih =>
    intro acc h
    unfold collectCandidates
    by_cases hc : acc.length ≥ L * 10
    · rw [if_pos hc]; exact h
    · rw [if_neg hc]
      apply ih
      by_cases hf : (e.is_file &&
          ql.data.all (fun c => strContainsChar (strToLower e.path) c)) = true
      · rw [if_pos hf, List.length_append]
        simp only [List.length_singleton]
        omega
      · rw [if_neg hf]
        exact h

lemma collectCandidates_early_stop (ql : String) (L : Nat) :
    ∀ (xs ys : List WalkEntry) (acc : List String),
      (collectCandidates ql L xs acc).length ≥ L * 10 →
      collectCandidates ql L (xs ++ ys) acc = collectCandidates ql L xs acc := by
  intro xs
  induction xs with
  | nil =>
    intro ys acc h
    simp only [List.nil_append]
    have hacc : acc.length ≥ L * 10 := by
      simpa [collectCandidates] using h
    rw [collectCandidates_stop ql L ys acc hacc]
    rfl
  | cons e rest ih =>
    intro ys acc h
    simp only [List.cons_append]
    unfold collectCandidates at h ⊢
    by_cases hc : acc.length ≥ L * 10
    · rw [if_pos hc, if_pos hc]
    · rw [if_neg hc] at h ⊢
      rw [if_neg hc]
      exact ih ys _ h

lemma collectCandidates_chars (ql : String) (L : Nat) :
    ∀ (w : List WalkEntry) (acc : List String),
      (∀ p ∈ acc, ∀ c ∈ ql.data, strContainsChar (strToLower p) c = true) →
      ∀ p ∈ collectCandidates ql L w acc, ∀ c ∈ ql.data,
        strContainsChar (strToLower p) c = true := by
  intro w
  induction w with
  | nil => intro acc hacc; simpa [collectCandidates] using hacc
  | cons e rest ih =>
    intro acc hacc p hp c hc
    unfold collectCandidates at hp
    by_cases hcap : acc.length ≥ L * 10
    · rw [if_pos hcap] at hp
      exact hacc p hp c hc
    · rw [if_neg hcap] at hp
      refine ih _ ?_ p hp c hc
      intro p' hp' c' hc'
      by_cases hf : (e.is_file &&
          ql.data.all (fun ch => strContainsChar (strToLower e.path) ch)) = true
      · rw [if_pos hf] at hp'
        rcases List.mem_append.mp hp' with h | h
        · exact hacc p' h c' hc'
        · simp only [List.mem_singleton] at h
          subst h
          rw [Bool.and_eq_true] at hf
          have hall := hf.2
          rw [List.all_eq_true] at hall
          exact hall c' hc'
      · rw [if_neg hf] at hp'
        exact hacc p' hp' c' hc'

/-- Claim C6: the file pipeline is strictly query-driven: an empty query
returns the empty list for every walk; for a non-empty query with limit `L`
the walk-time collection stops once `10 * L` candidates are gathered (later
walk entries are never examined), every collected candidate contains every
case-folded query character in its case-folded path, and the result is at
most `L` paths, the image of the affinity-descending sorted scored list. -/
theorem C6_file_pipeline (matcher : String → String → Option Int)
    (walk : List WalkEntry) (query : String) (limit : Nat) (hq : query ≠ "") :
    (∀ w, fileSearch matcher w "" limit = []) ∧
    update_search_files matcher walk "" = [] ∧
    (fileSearch matcher walk query limit).length ≤ limit ∧
    (collectCandidates (strToLower query) limit walk []).length ≤ limit * 10 ∧
    (∀ p ∈ collectCandidates (strToLower query) limit walk [],
      ∀ c ∈ (strToLower query).data, strContainsChar (strToLower p) c = true) ∧
    (∀ xs ys, (collectCandidates (strToLower query) limit xs []).length ≥ limit * 10 →
      collectCandidates (strToLower query) limit (xs ++ ys) [] =
        collectCandidates (strToLower query) limit xs []) ∧
    (List.insertionSort fileRel
        (fileMatches matcher query
          (collectCandidates (strToLower query) limit walk []))).Pairwise
      (fun a b => b.1 ≤ a.1) ∧
    fileSearch matcher walk query limit =
      ((List.insertionSort fileRel
          (fileMatches matcher query
            (collectCandidates (strToLower query) limit walk []))).take limit).map
        (fun p => p.2) := by
  refine ⟨?_, ?_, ?_, ?_, ?_, ?_, ?_, ?_⟩
  · intro w
    simp [fileSearch]
  · simp [update_search_files]
  · unfold fileSearch
    rw [if_neg hq]
    rw [List.length_map]
    exact List.length_take_le _ _
  · exact collectCandidates_length _ _ walk [] (by simp)
  · exact collectCandidates_chars _ _ walk [] (by intro p hp; simp at hp)
  · intro xs ys h
    exact collectCandidates_early_stop _ _ xs ys [] h
  · have hs := List.sorted_insertionSort fileRel
      (fileMatches matcher query (collectCandidates (strToLower query) limit walk []))
    refine hs.imp ?_
    intro a b hab
    simpa only [fileRel, fileLe, decide_eq_true_eq] using hab
  · unfold fileSearch
    rw [if_neg hq]

theorem C6_file_pipeline_witness :
    ("ma" : String) ≠ "" ∧
    fileSearch (fun p _ => some (Int.ofNat p.data.length))
      [⟨"/home/u/src/main.rs", true⟩, ⟨"/home/u/docs/readme.md", true⟩] "" 50 = [] ∧
    (fileSearch (fun p _ => some (Int.ofNat p.data.length))
      [⟨"/home/u/src/main.rs", true⟩, ⟨"/home/u/docs/readme.md", true⟩]
      "ma" 50).length ≤ 50 :=
  ⟨by decide,
   (C6_file_pipeline (fun p _ => some (Int.ofNat p.data.length))
       [⟨"/home/u/src/main.rs", true⟩, ⟨"/home/u/docs/readme.md", true⟩]
       "ma" 50 (by decide)).1 _,
   (C6_file_pipeline (fun p _ => some (Int.ofNat p.data.length))
       [⟨"/home/u/src/main.rs", true⟩, ⟨"/home/u/docs/readme.md", true⟩]
       "ma" 50 (by decide)).2.2.1⟩

end Rula
